import Mathlib

set_option linter.unusedVariables false

namespace Pulsegen

/-- Review record as produced by the upstream feed (google_play_scraper):
upstream identifier when present, free text content, star score, the derived
calendar date (review.at.date), the absolute timestamp (review.at.timestamp)
and the thumbs-up count.  Calendar dates are encoded as day numbers and
timestamps as second numbers. -/
structure Review where
  reviewId : Option String
  content : String
  score : Int
  date : Nat
  at_time : Nat
  thumbsUpCount : Nat
deriving DecidableEq

/-- Association list lookup, first match wins; models Python dict indexing
and row lookup by primary key in a SQLite table. -/
def lookupAssoc : List (Nat × Nat) → Nat → Option Nat
  | [], _ => none
  | p :: ps, d => if p.1 = d then some p.2 else lookupAssoc ps d

/-- Association list update: replace the first entry with the given key in
place, or append a fresh entry at the end; models assignment to a Python
dict key (insertion order preserved) and SQLite INSERT OR REPLACE keyed by
batch_date. -/
def setAssoc : List (Nat × Nat) → Nat → Nat → List (Nat × Nat)
  | [], d, c => [(d, c)]
  | p :: ps, d, c => if p.1 = d then (d, c) :: ps else p :: setAssoc ps d c

theorem lookupAssoc_setAssoc (l : List (Nat × Nat)) (d c x : Nat) :
    lookupAssoc (setAssoc l d c) x = if x = d then some c else lookupAssoc l x := by
  induction l with
  | nil =>
    by_cases hx : x = d
    · simp [setAssoc, lookupAssoc, hx]
    · have hdx : ¬ d = x := fun h => hx h.symm
      simp [setAssoc, lookupAssoc, hx, hdx]
  | cons p ps ih =>
    by_cases hp : p.1 = d
    · by_cases hx : x = d
      · simp [setAssoc, lookupAssoc, hp, hx]
      · have hdx : ¬ d = x := fun h => hx h.symm
        have hpx : ¬ p.1 = x := by rw [hp]; exact hdx
        simp [setAssoc, lookupAssoc, hp, hx, hdx, hpx]
    · by_cases hx : p.1 = x
      · have hxd : ¬ x = d := fun h => hp (by rw [hx, h])
        simp [setAssoc, lookupAssoc, hp, hx, hxd]
      · simp [setAssoc, lookupAssoc, hp, hx, ih]

/-- Progress state persisted in processing_status.json: the processed date
list, the last processed date, the running batch counter, and per-date
statistics mapping a date to its recorded review count (the wall-clock
processed_at timestamp carries no information for the claims and is not
modelled). -/
structure ProcessingStatus where
  processed_dates : List Nat
  last_processed_date : Option Nat
  total_batches_processed : Nat
  batch_stats : List (Nat × Nat)
deriving DecidableEq

/-- Default progress state built by _load_processing_status when no status
file exists. -/
def initial_processing_status : ProcessingStatus :=
  { processed_dates := []
    last_processed_date := none
    total_batches_processed := 0
    batch_stats := [] }

/-- DailyBatchProcessor._load_processing_status: when the status file exists
its contents are handed to json.load, whose outcome (parsed state or raised
exception) propagates unchanged because the method installs no handler; a
missing file yields the default empty state.  The filesystem read and the
json parser are external, so the file is modelled as its optional raw text
and the parser as a function returning a parsed state or an error. -/
def load_processing_status (file : Option String)
    (jsonLoad : String → Except String ProcessingStatus) :
    Except String ProcessingStatus :=
  match file with
  | some contents => jsonLoad contents
  | none => Except.ok initial_processing_status

/-- DailyBatchProcessor._mark_date_processed: append the date to the
processed list only when absent, set the last processed date, increment the
total batch counter unconditionally, and overwrite the per-date statistics
entry with the given review count. -/
def mark_date_processed (st : ProcessingStatus) (d : Nat) (review_count : Nat) :
    ProcessingStatus :=
  { processed_dates :=
      if d ∈ st.processed_dates then st.processed_dates
      else st.processed_dates ++ [d]
    last_processed_date := some d
    total_batches_processed := st.total_batches_processed + 1
    batch_stats := setAssoc st.batch_stats d review_count }

/-- DailyBatchProcessor.get_unprocessed_dates: keep exactly the available
dates that are not members of the processed date list. -/
def get_unprocessed_dates (st : ProcessingStatus) (all_available_dates : List Nat) :
    List Nat :=
  all_available_dates.filter (fun d => decide (d ∉ st.processed_dates))

theorem mem_mark_date_processed (st : ProcessingStatus) (d c x : Nat) :
    x ∈ (mark_date_processed st d c).processed_dates ↔
      x ∈ st.processed_dates ∨ x = d := by
  by_cases hd : d ∈ st.processed_dates
  · simp only [mark_date_processed, if_pos hd]
    constructor
    · exact Or.inl
    · rintro (h | rfl)
      · exact h
      · exact hd
  · simp [mark_date_processed, if_neg hd]

theorem stats_mark_date_processed (st : ProcessingStatus) (d c x : Nat) :
    lookupAssoc (mark_date_processed st d c).batch_stats x =
      if x = d then some c else lookupAssoc st.batch_stats x := by
  simp [mark_date_processed, lookupAssoc_setAssoc]

/-- Claim C5: every call to mark_processed increments total_batches_processed
by exactly one, even when the date is already in the processed set; the
processed-date list gains the date at most once (it is appended only when
absent), so replaying mark_processed for an already-marked date leaves the
processed list unchanged while double-counting total_batches_processed. -/
theorem C5_mark_processed_counting (st : ProcessingStatus) (d c c' : Nat) :
    (mark_date_processed st d c).total_batches_processed =
        st.total_batches_processed + 1
    ∧ (mark_date_processed (mark_date_processed st d c) d c').total_batches_processed =
        st.total_batches_processed + 2
    ∧ (mark_date_processed (mark_date_processed st d c) d c').processed_dates =
        (mark_date_processed st d c).processed_dates
    ∧ (mark_date_processed st d c).processed_dates =
        (if d ∈ st.processed_dates then st.processed_dates
         else st.processed_dates ++ [d]) := by
  have hmem : d ∈ (mark_date_processed st d c).processed_dates :=
    (mem_mark_date_processed st d c d).mpr (Or.inr rfl)
  refine ⟨rfl, rfl, ?_, rfl⟩
  show (if d ∈ (mark_date_processed st d c).processed_dates
        then (mark_date_processed st d c).processed_dates
        else (mark_date_processed st d c).processed_dates ++ [d])
      = (mark_date_processed st d c).processed_dates
  exact if_pos hmem

/-- Claim C7: when the status file exists but json.load fails on its
contents, loading the progress store surfaces that failure (fail fast) and
never yields any state, in particular not the default empty state; the
default state arises only when the file is missing. -/
theorem C7_corrupt_progress_fails_fast (contents : String)
    (jsonLoad : String → Except String ProcessingStatus) (e : String)
    (hcorrupt : jsonLoad contents = Except.error e) :
    load_processing_status (some contents) jsonLoad = Except.error e
    ∧ (∀ st, load_processing_status (some contents) jsonLoad ≠ Except.ok st)
    ∧ load_processing_status none jsonLoad = Except.ok initial_processing_status := by
  refine ⟨hcorrupt, ?_, rfl⟩
  intro st h
  rw [load_processing_status] at h
  rw [hcorrupt] at h
  exact Except.noConfusion h

theorem C7_witness :
    ((fun _ : String => (Except.error "corrupt" : Except String ProcessingStatus)) "oops"
        = Except.error "corrupt")
    ∧ load_processing_status (some "oops")
        (fun _ => Except.error "corrupt") = Except.error "corrupt" :=
  ⟨rfl, (C7_corrupt_progress_fails_fast "oops" (fun _ => Except.error "corrupt")
      "corrupt" rfl).1⟩

/-- Claim C8: get_unprocessed_dates returns exactly the available dates not
in the processed set, by set membership; with processed dates 1 and 2 and
available dates 1, 2, 3 it returns exactly the list containing 3. -/
theorem C8_unprocessed_membership :
    (∀ (st : ProcessingStatus) (avail : List Nat) (d : Nat),
        d ∈ get_unprocessed_dates st avail ↔
          d ∈ avail ∧ d ∉ st.processed_dates)
    ∧ get_unprocessed_dates
        { processed_dates := [1, 2]
          last_processed_date := some 2
          total_batches_processed := 2
          batch_stats := [(1, 5), (2, 7)] } [1, 2, 3] = [3] := by
  constructor
  · intro st avail d
    simp [get_unprocessed_dates]
  · decide

/-- Per-review acceptance step of ReviewScraper.scrape_historical_reviews:
a review whose date lies in the window from start_date to today (inclusive)
first ensures a zero counter entry for its day exists (appended in insertion
order, as a Python dict key), then is appended to the accumulator and its
day counter incremented only while that counter is below the per-day quota;
out-of-window reviews are discarded.  The state is the pair of the
daily_review_counts dict and the all_reviews accumulator. -/
def acceptReview (today startD quota : Nat)
    (st : List (Nat × Nat) × List Review) (r : Review) :
    List (Nat × Nat) × List Review :=
  if startD ≤ r.date ∧ r.date ≤ today then
    let counts1 :=
      match lookupAssoc st.1 r.date with
      | none => st.1 ++ [(r.date, 0)]
      | some _ => st.1
    let cur := (lookupAssoc counts1 r.date).getD 0
    if cur < quota then (setAssoc counts1 r.date (cur + 1), st.2 ++ [r])
    else (counts1, st.2)
  else st

/-- The inner for-loop of scrape_historical_reviews over one fetched page. -/
def processPage (today startD quota : Nat) (counts : List (Nat × Nat))
    (acc : List Review) (batch : List Review) :
    List (Nat × Nat) × List Review :=
  batch.foldl (acceptReview today startD quota) (counts, acc)

/-- Count of distinct days whose per-day counter has reached the quota, as
computed by scrape_historical_reviews after each page. -/
def daysAtQuota (counts : List (Nat × Nat)) (quota : Nat) : Nat :=
  (counts.filter (fun p => decide (quota ≤ p.2))).length

/-- The pagination loop of ReviewScraper.scrape_historical_reviews.  The
upstream feed is modelled as the list of successive responses of the
reviews() call, each a page of reviews together with whether a continuation
token was returned; the loop consumes one element per request.  Returns the
accumulated reviews, the final per-day counters, and the number of pages
requested.  Mirrors the source: the while head continues only while the
number of distinct days holding a counter is below days_range; after a
request the loop breaks on an empty page, and otherwise breaks when the
number of days at quota reaches days_range or no continuation token was
returned. -/
def scrape_loop (daysRange quota today startD : Nat) :
    List (List Review × Bool) → List (Nat × Nat) → List Review →
    List Review × List (Nat × Nat) × Nat
  | [], counts, acc => (acc, counts, 0)
  | (batch, tok) :: rest, counts, acc =>
    if daysRange ≤ counts.length then (acc, counts, 0)
    else if batch.isEmpty then (acc, counts, 1)
    else
      let st := processPage today startD quota counts acc batch
      if daysRange ≤ daysAtQuota st.1 quota ∨ tok = false then (st.2, st.1, 1)
      else
        let r := scrape_loop daysRange quota today startD rest st.1 st.2
        (r.1, r.2.1, r.2.2 + 1)

theorem scrape_loop_stop (daysRange quota today startD : Nat)
    (feed : List (List Review × Bool)) (counts : List (Nat × Nat))
    (acc : List Review) (h : daysRange ≤ counts.length) :
    scrape_loop daysRange quota today startD feed counts acc = (acc, counts, 0) := by
  cases feed with
  | nil => rfl
  | cons p rest =>
    obtain ⟨batch, tok⟩ := p
    simp [scrape_loop, if_pos h]

theorem scrape_loop_consumes_pos (daysRange quota today startD : Nat)
    (page : List Review × Bool) (rest : List (List Review × Bool))
    (counts : List (Nat × Nat)) (acc : List Review)
    (h : counts.length < daysRange) :
    1 ≤ (scrape_loop daysRange quota today startD (page :: rest) counts acc).2.2 := by
  obtain ⟨batch, tok⟩ := page
  rw [scrape_loop]
  rw [if_neg (Nat.not_le.mpr h)]
  by_cases hb : batch.isEmpty
  · simp [hb]
  · simp only [hb, if_false, Bool.false_eq_true]
    split
    · exact Nat.le_refl 1
    · exact Nat.le_add_left 1 _

/-- Claim C2, counterexample: with day_count 1 and per_day_quota 2, a feed
whose first page holds one in-window review and returns a continuation
token, and whose second page holds another, the loop requests exactly one
page, although after that page a continuation token remained, the page was
not empty, and zero days (fewer than day_count) had reached the quota: the
loop head stops as soon as one distinct day has any accepted review.  The
final conjunct is the negation of the claim's continuation condition at
this input. -/
theorem C2_counterexample :
    (scrape_loop 1 2 10 9
        [([⟨none, "a", 5, 10, 100, 0⟩], true), ([⟨none, "b", 4, 10, 101, 0⟩], true)]
        [] []).2.2 = 1
    ∧ ([(⟨none, "a", 5, 10, 100, 0⟩ : Review)].isEmpty = false)
    ∧ daysAtQuota (processPage 10 9 2 [] [] [⟨none, "a", 5, 10, 100, 0⟩]).1 2 = 0
    ∧ ¬ (2 ≤ (scrape_loop 1 2 10 9
          [([⟨none, "a", 5, 10, 100, 0⟩], true), ([⟨none, "b", 4, 10, 101, 0⟩], true)]
          [] []).2.2 ↔
        (([(⟨none, "a", 5, 10, 100, 0⟩ : Review)].isEmpty = false) ∧ true = true
          ∧ daysAtQuota (processPage 10 9 2 [] [] [⟨none, "a", 5, 10, 100, 0⟩]).1 2 < 1)) := by
  decide

/-- Claim C2 as amended: starting from a state in which fewer than
day_count distinct days hold a counter (so the while head admits a request)
and with at least one further feed response available, the loop requests a
further page after the current one exactly when the current page is
nonempty, a continuation token was returned, fewer than day_count days have
reached the quota after the page, and additionally fewer than day_count
distinct days hold any counter after the page — this last loop-head
condition is the one the claim omits. -/
theorem C2_amended_continuation_iff (daysRange quota today startD : Nat)
    (batch : List Review) (tok : Bool) (rest : List (List Review × Bool))
    (counts : List (Nat × Nat)) (acc : List Review)
    (hhead : counts.length < daysRange) (hrest : rest ≠ []) :
    2 ≤ (scrape_loop daysRange quota today startD
          ((batch, tok) :: rest) counts acc).2.2 ↔
      (batch.isEmpty = false ∧ tok = true
        ∧ daysAtQuota (processPage today startD quota counts acc batch).1 quota < daysRange
        ∧ (processPage today startD quota counts acc batch).1.length < daysRange) := by
  rw [scrape_loop]
  rw [if_neg (Nat.not_le.mpr hhead)]
  by_cases hb : batch.isEmpty = true
  · rw [if_pos hb]
    rw [hb]
    simp
  · rw [if_neg hb]
    rw [Bool.not_eq_true] at hb
    by_cases hbrk : daysRange ≤ daysAtQuota (processPage today startD quota counts acc batch).1 quota ∨ tok = false
    · rw [if_pos hbrk]
      constructor
      · intro h
        have h1 : (2 : Nat) ≤ 1 := h
        omega
      · rintro ⟨-, htok, hq, -⟩
        rcases hbrk with hq' | htok'
        · omega
        · rw [htok] at htok'
          exact Bool.noConfusion htok'
    · rw [if_neg hbrk]
      push_neg at hbrk
      obtain ⟨hq, htok⟩ := hbrk
      have htok' : tok = true := by
        cases tok
        · exact absurd rfl htok
        · rfl
      by_cases hlen : (processPage today startD quota counts acc batch).1.length < daysRange
      · obtain ⟨page2, rest2, rfl⟩ : ∃ p r2, rest = p :: r2 := by
          cases rest with
          | nil => exact absurd rfl hrest
          | cons p r2 => exact ⟨p, r2, rfl⟩
        have hpos := scrape_loop_consumes_pos daysRange quota today startD page2 rest2
          (processPage today startD quota counts acc batch).1
          (processPage today startD quota counts acc batch).2 hlen
        constructor
        · intro _
          exact ⟨hb, htok', hq, hlen⟩
        · intro _
          show 2 ≤ (scrape_loop daysRange quota today startD (page2 :: rest2)
              (processPage today startD quota counts acc batch).1
              (processPage today startD quota counts acc batch).2).2.2 + 1
          omega
      · have hstop := scrape_loop_stop daysRange quota today startD rest
          (processPage today startD quota counts acc batch).1
          (processPage today startD quota counts acc batch).2 (Nat.le_of_not_lt hlen)
        constructor
        · intro h
          have h2 : (2 : Nat) ≤ (scrape_loop daysRange quota today startD rest
              (processPage today startD quota counts acc batch).1
              (processPage today startD quota counts acc batch).2).2.2 + 1 := h
          rw [hstop] at h2
          simp at h2
        · rintro ⟨-, -, -, hlen'⟩
          exact absurd hlen' hlen

theorem C2_amended_witness :
    (([] : List (Nat × Nat)).length < 1
      ∧ ([([⟨none, "b", 4, 10, 101, 0⟩], true)] : List (List Review × Bool)) ≠ [])
    ∧ (2 ≤ (scrape_loop 1 2 10 9
          [([⟨none, "a", 5, 10, 100, 0⟩], true), ([⟨none, "b", 4, 10, 101, 0⟩], true)]
          [] []).2.2 ↔
        (([(⟨none, "a", 5, 10, 100, 0⟩ : Review)] : List Review).isEmpty = false ∧ true = true
          ∧ daysAtQuota (processPage 10 9 2 [] [] [⟨none, "a", 5, 10, 100, 0⟩]).1 2 < 1
          ∧ (processPage 10 9 2 [] [] [⟨none, "a", 5, 10, 100, 0⟩]).1.length < 1)) :=
  ⟨⟨by decide, by decide⟩,
    C2_amended_continuation_iff 1 2 10 9 [⟨none, "a", 5, 10, 100, 0⟩] true
      [([⟨none, "b", 4, 10, 101, 0⟩], true)] [] [] (by decide) (by decide)⟩

/-- The review identifier synthesized in DataStorage.store_daily_batch when
the upstream reviewId is absent: the f-string rev_ followed by the Python
hash of the content and the timestamp.  Python salts the hash of a string
with a per-process random seed, so the hash is a parameter of the run, not
a fixed function of the content. -/
def synthReviewId (pyHash : String → Int) (content : String) (ts : Nat) : String :=
  "rev_" ++ toString (pyHash content) ++ "_" ++ toString ts

/-- A persisted row of the raw_reviews table. -/
structure RawRow where
  review_id : String
  content : String
  score : Int
  date : Nat
  at_time : Nat
  app_id : String
  thumbs_up_count : Nat
  batch_date : Nat
deriving DecidableEq

/-- The tuple built for one review inside store_daily_batch: the upstream
identifier when present, otherwise the synthesized one. -/
def mkRow (pyHash : String → Int) (appId : String) (batchDate : Nat)
    (r : Review) : RawRow :=
  { review_id := r.reviewId.getD (synthReviewId pyHash r.content r.at_time)
    content := r.content
    score := r.score
    date := r.date
    at_time := r.at_time
    app_id := appId
    thumbs_up_count := r.thumbsUpCount
    batch_date := batchDate }

/-- Durable record store: the raw_reviews table (primary key review_id) and
the batch_processing table (primary key batch_date, mapped to its
review_count column; the processed_at timestamp and constant status column
carry no information for the claims). -/
structure RecordStore where
  raw_reviews : List RawRow
  batch_processing : List (Nat × Nat)
deriving DecidableEq

/-- INSERT OR IGNORE of a list of rows keyed by review_id, returning the
resulting table together with cursor.rowcount, the number of rows actually
inserted (a row whose key already occurs, in the table or earlier in the
same batch, is ignored and not counted). -/
def insertOrIgnore : List RawRow → List RawRow → List RawRow × Nat
  | rows, [] => (rows, 0)
  | rows, rec :: recs =>
    if rows.any (fun q => decide (q.review_id = rec.review_id)) then
      insertOrIgnore rows recs
    else
      let r := insertOrIgnore (rows ++ [rec]) recs
      (r.1, r.2 + 1)

theorem insertOrIgnore_count_le (recs rows : List RawRow) :
    (insertOrIgnore rows recs).2 ≤ recs.length := by
  induction recs generalizing rows with
  | nil => exact Nat.le_refl 0
  | cons rec recs ih =>
    rw [insertOrIgnore]
    split
    · exact Nat.le_trans (ih rows) (Nat.le_succ _)
    · exact Nat.succ_le_succ (ih (rows ++ [rec]))

/-- DataStorage.store_daily_batch: an empty frame returns with no effect at
all; otherwise every review is turned into a row and inserted with INSERT
OR IGNORE, and then the batch_processing row for the batch date is
replaced, recording the number of rows actually inserted (not the number
attempted). -/
def store_daily_batch (pyHash : String → Int) (db : RecordStore)
    (df : List Review) (appId : String) (batchDate : Nat) : RecordStore :=
  if df.isEmpty then db
  else
    let res := insertOrIgnore db.raw_reviews (df.map (mkRow pyHash appId batchDate))
    { raw_reviews := res.1
      batch_processing := setAssoc db.batch_processing batchDate res.2 }

/-- Combined mutable state of one run: the SQLite record store and the
progress file state. -/
structure SystemState where
  db : RecordStore
  progress : ProcessingStatus
deriving DecidableEq

/-- DailyBatchProcessor.process_single_day_batch.  An empty frame is marked
processed with count zero without touching the record store.  Otherwise
store_daily_batch runs first and _mark_date_processed runs second; a
storage failure (an exception raised inside store_daily_batch, modelled by
the fault oracle since I/O is external) is caught by the surrounding
try/except, which returns False, and since SQLite commits only at the end
of the store, a failed store leaves the record store unchanged and the
mark step is never reached. -/
def process_single_day_batch (pyHash : String → Int) (appId : String)
    (fault : Nat → Bool) (st : SystemState) (daily_reviews : List Review)
    (target_date : Nat) : Bool × SystemState :=
  if daily_reviews.isEmpty then
    (true, { st with progress := mark_date_processed st.progress target_date 0 })
  else if fault target_date then
    (false, st)
  else
    (true,
      { db := store_daily_batch pyHash st.db daily_reviews appId target_date
        progress := mark_date_processed st.progress target_date daily_reviews.length })

/-- The per-date loop of DailyBatchProcessor.process_historical_data (its
Step 4): process each unprocessed daily batch in order, counting successes
and collecting the dates of failed batches for the run summary. -/
def run_daily_batches (pyHash : String → Int) (appId : String)
    (fault : Nat → Bool) (st : SystemState) :
    List (Nat × List Review) → SystemState × Nat × List Nat
  | [] => (st, 0, [])
  | (d, revs) :: rest =>
    let step := process_single_day_batch pyHash appId fault st revs d
    let r := run_daily_batches pyHash appId fault step.2 rest
    (r.1, (if step.1 then 1 else 0) + r.2.1, (if step.1 then [] else [d]) ++ r.2.2)

theorem step_processed_iff (pyHash : String → Int) (appId : String)
    (fault : Nat → Bool) (st : SystemState) (revs : List Review) (d x : Nat) :
    x ∈ (process_single_day_batch pyHash appId fault st revs d).2.progress.processed_dates ↔
      x ∈ st.progress.processed_dates
        ∨ (x = d ∧ (revs.isEmpty = true ∨ fault d = false)) := by
  rw [process_single_day_batch]
  by_cases he : revs.isEmpty = true
  · rw [if_pos he]
    simp [mem_mark_date_processed, he]
  · rw [if_neg he]
    rw [Bool.not_eq_true] at he
    by_cases hf : fault d = true
    · rw [if_pos hf]
      simp [he, hf]
    · rw [if_neg hf]
      rw [Bool.not_eq_true] at hf
      simp [mem_mark_date_processed, hf]

theorem step_stats_lookup (pyHash : String → Int) (appId : String)
    (fault : Nat → Bool) (st : SystemState) (revs : List Review) (d x : Nat)
    (hx : x ≠ d) :
    lookupAssoc (process_single_day_batch pyHash appId fault st revs d).2.progress.batch_stats x =
      lookupAssoc st.progress.batch_stats x := by
  rw [process_single_day_batch]
  split
  · simp [stats_mark_date_processed, hx]
  · split
    · rfl
    · simp [stats_mark_date_processed, hx]

theorem step_batch_row_lookup (pyHash : String → Int) (appId : String)
    (fault : Nat → Bool) (st : SystemState) (revs : List Review) (d x : Nat)
    (hx : x ≠ d) :
    lookupAssoc (process_single_day_batch pyHash appId fault st revs d).2.db.batch_processing x =
      lookupAssoc st.db.batch_processing x := by
  rw [process_single_day_batch]
  split
  · rfl
  · split
    · rfl
    · rw [store_daily_batch]
      split
      · rfl
      · simp [lookupAssoc_setAssoc, hx]

theorem run_processed_iff (pyHash : String → Int) (appId : String)
    (fault : Nat → Bool) (batches : List (Nat × List Review))
    (st : SystemState) (x : Nat) :
    x ∈ (run_daily_batches pyHash appId fault st batches).1.progress.processed_dates ↔
      x ∈ st.progress.processed_dates
        ∨ ∃ p ∈ batches, p.1 = x ∧ (p.2.isEmpty = true ∨ fault x = false) := by
  induction batches generalizing st with
  | nil => simp [run_daily_batches]
  | cons p rest ih =>
    obtain ⟨d, revs⟩ := p
    rw [run_daily_batches]
    rw [ih]
    rw [step_processed_iff]
    constructor
    · rintro ((hmem | ⟨rfl, hcond⟩) | ⟨q, hq, rfl, hcond⟩)
      · exact Or.inl hmem
      · exact Or.inr ⟨(x, revs), List.mem_cons_self _ _, rfl, hcond⟩
      · exact Or.inr ⟨q, List.mem_cons_of_mem _ hq, rfl, hcond⟩
    · rintro (hmem | ⟨q, hq, rfl, hcond⟩)
      · exact Or.inl (Or.inl hmem)
      · rcases List.mem_cons.mp hq with rfl | hq'
        · exact Or.inl (Or.inr ⟨rfl, hcond⟩)
        · exact Or.inr ⟨q, hq', rfl, hcond⟩

theorem run_failed_iff (pyHash : String → Int) (appId : String)
    (fault : Nat → Bool) (batches : List (Nat × List Review))
    (st : SystemState) (x : Nat) :
    x ∈ (run_daily_batches pyHash appId fault st batches).2.2 ↔
      ∃ p ∈ batches, p.1 = x ∧ p.2.isEmpty = false ∧ fault x = true := by
  induction batches generalizing st with
  | nil => simp [run_daily_batches]
  | cons p rest ih =>
    obtain ⟨d, revs⟩ := p
    rw [run_daily_batches]
    have hstep : (process_single_day_batch pyHash appId fault st revs d).1 =
        (revs.isEmpty || !(fault d)) := by
      rw [process_single_day_batch]
      split
      · rename_i he
        rw [he]
        rfl
      · rename_i he
        rw [Bool.not_eq_true] at he
        rw [he]
        split
        · rename_i hf
          rw [hf]
          rfl
        · rename_i hf
          rw [Bool.not_eq_true] at hf
          rw [hf]
          rfl
    by_cases hok : (process_single_day_batch pyHash appId fault st revs d).1 = true
    · rw [hok] at hstep
      simp only [hok, if_true, List.nil_append]
      rw [ih]
      constructor
      · rintro ⟨q, hq, rfl, hcond⟩
        exact ⟨q, List.mem_cons_of_mem _ hq, rfl, hcond⟩
      · rintro ⟨q, hq, rfl, hcond⟩
        rcases List.mem_cons.mp hq with rfl | hq'
        · exfalso
          obtain ⟨hemp, hfault⟩ := hcond
          rcases Bool.or_eq_true_iff.mp hstep.symm with h1 | h1
          · rw [hemp] at h1
            exact Bool.noConfusion h1
          · rw [hfault] at h1
            exact Bool.noConfusion h1
        · exact ⟨q, hq', rfl, hcond⟩
    · rw [Bool.not_eq_true] at hok
      rw [hok] at hstep
      have hemp : revs.isEmpty = false ∧ fault d = true := by
        rcases Bool.or_eq_false_iff.mp hstep.symm with ⟨h1, h2⟩
        constructor
        · exact h1
        · cases hfd : fault d
          · rw [hfd] at h2
            exact Bool.noConfusion h2
          · rfl
      simp only [hok, if_false, Bool.false_eq_true, List.singleton_append]
      rw [List.mem_cons]
      rw [ih]
      constructor
      · rintro (rfl | ⟨q, hq, rfl, hcond⟩)
        · exact ⟨(x, revs), List.mem_cons_self _ _, rfl, hemp⟩
        · exact ⟨q, List.mem_cons_of_mem _ hq, rfl, hcond⟩
      · rintro ⟨q, hq, rfl, hcond⟩
        rcases List.mem_cons.mp hq with rfl | hq'
        · exact Or.inl rfl
        · exact Or.inr ⟨q, hq', rfl, hcond⟩

theorem run_stats_lookup (pyHash : String → Int) (appId : String)
    (fault : Nat → Bool) (batches : List (Nat × List Review))
    (st : SystemState) (x : Nat) (hx : ∀ p ∈ batches, p.1 ≠ x) :
    lookupAssoc (run_daily_batches pyHash appId fault st batches).1.progress.batch_stats x =
      lookupAssoc st.progress.batch_stats x := by
  induction batches generalizing st with
  | nil => rfl
  | cons p rest ih =>
    obtain ⟨d, revs⟩ := p
    rw [run_daily_batches]
    rw [ih _ (fun q hq => hx q (List.mem_cons_of_mem _ hq))]
    exact step_stats_lookup pyHash appId fault st revs d x
      (fun h => hx (d, revs) (List.mem_cons_self _ _) (h ▸ rfl))

theorem run_batch_row_lookup (pyHash : String → Int) (appId : String)
    (fault : Nat → Bool) (batches : List (Nat × List Review))
    (st : SystemState) (x : Nat) (hx : ∀ p ∈ batches, p.1 ≠ x) :
    lookupAssoc (run_daily_batches pyHash appId fault st batches).1.db.batch_processing x =
      lookupAssoc st.db.batch_processing x := by
  induction batches generalizing st with
  | nil => rfl
  | cons p rest ih =>
    obtain ⟨d, revs⟩ := p
    rw [run_daily_batches]
    rw [ih _ (fun q hq => hx q (List.mem_cons_of_mem _ hq))]
    exact step_batch_row_lookup pyHash appId fault st revs d x
      (fun h => hx (d, revs) (List.mem_cons_self _ _) (h ▸ rfl))

theorem isEmpty_false_of_ne {α : Type} {l : List α} (h : l ≠ []) :
    l.isEmpty = false := by
  cases l with
  | nil => exact absurd rfl h
  | cons a t => rfl

theorem step_fault_state (pyHash : String → Int) (appId : String)
    (fault : Nat → Bool) (st : SystemState) (revs : List Review) (d : Nat)
    (hne : revs.isEmpty = false) (hf : fault d = true) :
    process_single_day_batch pyHash appId fault st revs d = (false, st) := by
  rw [process_single_day_batch]
  rw [if_neg (by simp [hne])]
  rw [if_pos hf]

theorem step_success_state (pyHash : String → Int) (appId : String)
    (fault : Nat → Bool) (st : SystemState) (revs : List Review) (d : Nat)
    (hne : revs.isEmpty = false) (hf : fault d = false) :
    process_single_day_batch pyHash appId fault st revs d =
      (true,
        { db := store_daily_batch pyHash st.db revs appId d
          progress := mark_date_processed st.progress d revs.length }) := by
  rw [process_single_day_batch]
  rw [if_neg (by simp [hne])]
  rw [if_neg (by simp [hf])]

theorem nodup_fst_unique {l : List (Nat × List Review)}
    (h : (l.map Prod.fst).Nodup) {p q : Nat × List Review}
    (hp : p ∈ l) (hq : q ∈ l) (hpq : p.1 = q.1) : p = q := by
  induction l with
  | nil => cases hp
  | cons a t ih =>
    rw [List.map_cons] at h
    have h1 := (List.nodup_cons.mp h).1
    have h2 := (List.nodup_cons.mp h).2
    rcases List.mem_cons.mp hp with rfl | hp'
    · rcases List.mem_cons.mp hq with rfl | hq'
      · rfl
      · exact absurd (List.mem_map.mpr ⟨q, hq', hpq.symm⟩) h1
    · rcases List.mem_cons.mp hq with rfl | hq'
      · exact absurd (List.mem_map.mpr ⟨p, hp', hpq⟩) h1
      · exact ih h2 hp' hq'

theorem run_stats_lookup_skipped (pyHash : String → Int) (appId : String)
    (fault : Nat → Bool) (batches : List (Nat × List Review))
    (st : SystemState) (x : Nat)
    (hx : ∀ p ∈ batches, p.1 = x → p.2.isEmpty = false ∧ fault x = true) :
    lookupAssoc (run_daily_batches pyHash appId fault st batches).1.progress.batch_stats x =
      lookupAssoc st.progress.batch_stats x := by
  induction batches generalizing st with
  | nil => rfl
  | cons p rest ih =>
    obtain ⟨d, revs⟩ := p
    rw [run_daily_batches]
    rw [ih _ (fun q hq => hx q (List.mem_cons_of_mem _ hq))]
    by_cases hd : d = x
    · subst hd
      obtain ⟨hne, hf⟩ := hx (d, revs) (List.mem_cons_self _ _) rfl
      rw [step_fault_state pyHash appId fault st revs d hne hf]
    · exact step_stats_lookup pyHash appId fault st revs d x (fun h => hd h.symm)

/-- Claim C6: for a date whose durable store write raises, the date is not
added to the processed set, its per-date statistics in the progress store
are unchanged, the date appears in the run summary's failed list, and
every other date of the run whose store does not fail is still processed
(failures are isolated per date). -/
theorem C6_storage_failure_isolation (pyHash : String → Int) (appId : String)
    (fault : Nat → Bool) (st : SystemState) (batches : List (Nat × List Review))
    (hnodup : (batches.map Prod.fst).Nodup) (d : Nat) (revs : List Review)
    (hmem : (d, revs) ∈ batches) (hne : revs ≠ []) (hfault : fault d = true) :
    d ∈ (run_daily_batches pyHash appId fault st batches).2.2
    ∧ (d ∈ (run_daily_batches pyHash appId fault st batches).1.progress.processed_dates ↔
        d ∈ st.progress.processed_dates)
    ∧ lookupAssoc (run_daily_batches pyHash appId fault st batches).1.progress.batch_stats d =
        lookupAssoc st.progress.batch_stats d
    ∧ (∀ d' revs', (d', revs') ∈ batches → fault d' = false →
        d' ∈ (run_daily_batches pyHash appId fault st batches).1.progress.processed_dates) := by
  have hempty : revs.isEmpty = false := isEmpty_false_of_ne hne
  have huniq : ∀ p ∈ batches, p.1 = d → p = (d, revs) := by
    intro p hp hpd
    exact nodup_fst_unique hnodup hp hmem hpd
  refine ⟨?_, ?_, ?_, ?_⟩
  · exact (run_failed_iff pyHash appId fault batches st d).mpr
      ⟨(d, revs), hmem, rfl, hempty, hfault⟩
  · rw [run_processed_iff]
    constructor
    · rintro (h | ⟨p, hp, hpd, hcond⟩)
      · exact h
      · have hpq := huniq p hp hpd
        rw [hpq] at hcond
        rcases hcond with h1 | h1
        · rw [hempty] at h1
          exact Bool.noConfusion h1
        · rw [hfault] at h1
          exact Bool.noConfusion h1
    · exact Or.inl
  · refine run_stats_lookup_skipped pyHash appId fault batches st d ?_
    intro p hp hpd
    have hpq := huniq p hp hpd
    rw [hpq]
    exact ⟨hempty, hfault⟩
  · intro d' revs' hmem' hfault'
    exact (run_processed_iff pyHash appId fault batches st d').mpr
      (Or.inr ⟨(d', revs'), hmem', rfl, Or.inr hfault'⟩)

theorem C6_witness :
    ((([(0, [(⟨some "a", "ca", 5, 0, 10, 0⟩ : Review)]),
        (1, [(⟨some "b", "cb", 4, 1, 11, 0⟩ : Review)])].map Prod.fst).Nodup)
      ∧ ((0, [(⟨some "a", "ca", 5, 0, 10, 0⟩ : Review)]) ∈
          [(0, [(⟨some "a", "ca", 5, 0, 10, 0⟩ : Review)]),
           (1, [(⟨some "b", "cb", 4, 1, 11, 0⟩ : Review)])])
      ∧ ([(⟨some "a", "ca", 5, 0, 10, 0⟩ : Review)] ≠ [])
      ∧ ((fun n => decide (n = 0)) 0 = true))
    ∧ (0 ∈ (run_daily_batches (fun _ => 0) "app" (fun n => decide (n = 0))
          ⟨⟨[], []⟩, ⟨[], none, 0, []⟩⟩
          [(0, [⟨some "a", "ca", 5, 0, 10, 0⟩]), (1, [⟨some "b", "cb", 4, 1, 11, 0⟩])]).2.2
      ∧ (0 ∈ (run_daily_batches (fun _ => 0) "app" (fun n => decide (n = 0))
          ⟨⟨[], []⟩, ⟨[], none, 0, []⟩⟩
          [(0, [⟨some "a", "ca", 5, 0, 10, 0⟩]), (1, [⟨some "b", "cb", 4, 1, 11, 0⟩])]).1.progress.processed_dates ↔
          0 ∈ (⟨⟨[], []⟩, ⟨[], none, 0, []⟩⟩ : SystemState).progress.processed_dates)
      ∧ lookupAssoc (run_daily_batches (fun _ => 0) "app" (fun n => decide (n = 0))
          ⟨⟨[], []⟩, ⟨[], none, 0, []⟩⟩
          [(0, [⟨some "a", "ca", 5, 0, 10, 0⟩]), (1, [⟨some "b", "cb", 4, 1, 11, 0⟩])]).1.progress.batch_stats 0 =
          lookupAssoc (⟨⟨[], []⟩, ⟨[], none, 0, []⟩⟩ : SystemState).progress.batch_stats 0
      ∧ (∀ d' revs', (d', revs') ∈
            [(0, [(⟨some "a", "ca", 5, 0, 10, 0⟩ : Review)]),
             (1, [(⟨some "b", "cb", 4, 1, 11, 0⟩ : Review)])] →
          (fun n => decide (n = 0)) d' = false →
          d' ∈ (run_daily_batches (fun _ => 0) "app" (fun n => decide (n = 0))
            ⟨⟨[], []⟩, ⟨[], none, 0, []⟩⟩
            [(0, [⟨some "a", "ca", 5, 0, 10, 0⟩]), (1, [⟨some "b", "cb", 4, 1, 11, 0⟩])]).1.progress.processed_dates)) :=
  ⟨⟨by decide, by decide, by decide, by decide⟩,
    C6_storage_failure_isolation (fun _ => 0) "app" (fun n => decide (n = 0))
      ⟨⟨[], []⟩, ⟨[], none, 0, []⟩⟩
      [(0, [⟨some "a", "ca", 5, 0, 10, 0⟩]), (1, [⟨some "b", "cb", 4, 1, 11, 0⟩])]
      (by decide) 0 [⟨some "a", "ca", 5, 0, 10, 0⟩] (by decide) (by decide) (by decide)⟩

/-- Claim C1, counterexample: with an empty record store and empty progress,
running the per-day loop on one batch holding the same review twice (a
duplicate the fetcher never filters, since upstream pages may repeat
records) marks the date processed with a recorded count of two, while the
batch-metadata row records one — the number of rows actually inserted —
so no batch-metadata row of equal or greater review count exists for a date
in the processed set.  The final conjunct negates the claim at this input. -/
theorem C1_counterexample :
    (run_daily_batches (fun _ => 0) "app" (fun _ => false)
        ⟨⟨[], []⟩, ⟨[], none, 0, []⟩⟩
        [(0, [⟨some "a", "dup", 5, 0, 7, 0⟩, ⟨some "a", "dup", 5, 0, 7, 0⟩])]).1.progress.processed_dates = [0]
    ∧ lookupAssoc (run_daily_batches (fun _ => 0) "app" (fun _ => false)
        ⟨⟨[], []⟩, ⟨[], none, 0, []⟩⟩
        [(0, [⟨some "a", "dup", 5, 0, 7, 0⟩, ⟨some "a", "dup", 5, 0, 7, 0⟩])]).1.db.batch_processing 0 = some 1
    ∧ lookupAssoc (run_daily_batches (fun _ => 0) "app" (fun _ => false)
        ⟨⟨[], []⟩, ⟨[], none, 0, []⟩⟩
        [(0, [⟨some "a", "dup", 5, 0, 7, 0⟩, ⟨some "a", "dup", 5, 0, 7, 0⟩])]).1.progress.batch_stats 0 = some 2
    ∧ ¬ (∀ d, d ∈ (run_daily_batches (fun _ => 0) "app" (fun _ => false)
          ⟨⟨[], []⟩, ⟨[], none, 0, []⟩⟩
          [(0, [⟨some "a", "dup", 5, 0, 7, 0⟩, ⟨some "a", "dup", 5, 0, 7, 0⟩])]).1.progress.processed_dates →
        ∀ rc, lookupAssoc (run_daily_batches (fun _ => 0) "app" (fun _ => false)
          ⟨⟨[], []⟩, ⟨[], none, 0, []⟩⟩
          [(0, [⟨some "a", "dup", 5, 0, 7, 0⟩, ⟨some "a", "dup", 5, 0, 7, 0⟩])]).1.progress.batch_stats d = some rc →
        ∃ c, lookupAssoc (run_daily_batches (fun _ => 0) "app" (fun _ => false)
          ⟨⟨[], []⟩, ⟨[], none, 0, []⟩⟩
          [(0, [⟨some "a", "dup", 5, 0, 7, 0⟩, ⟨some "a", "dup", 5, 0, 7, 0⟩])]).1.db.batch_processing d = some c
          ∧ rc ≤ c) := by
  refine ⟨by decide, by decide, by decide, ?_⟩
  intro h
  obtain ⟨c, hc, hle⟩ := h 0 (by decide) 2 (by decide)
  have hv : lookupAssoc (run_daily_batches (fun _ => 0) "app" (fun _ => false)
      ⟨⟨[], []⟩, ⟨[], none, 0, []⟩⟩
      [(0, [⟨some "a", "dup", 5, 0, 7, 0⟩, ⟨some "a", "dup", 5, 0, 7, 0⟩])]).1.db.batch_processing 0 = some 1 := by
    decide
  rw [hv] at hc
  injection hc with hc1
  omega

/-- Claim C1 as amended: within a run whose daily batches carry distinct
dates and are all nonempty (as the partitioner produces for a positive
quota), every date newly added to the processed set has a batch-metadata
row in the record store — the durable write happens strictly before the
mark — and that row's review count equals the number of rows actually
inserted, which is at most (not at least) the review count recorded for
the date in the progress store; the counterexample shows it can be
strictly smaller. -/
theorem C1_amended_row_before_mark (pyHash : String → Int) (appId : String)
    (fault : Nat → Bool) (st : SystemState) (batches : List (Nat × List Review))
    (hnodup : (batches.map Prod.fst).Nodup)
    (hne : ∀ p ∈ batches, p.2 ≠ []) (d : Nat)
    (hfin : d ∈ (run_daily_batches pyHash appId fault st batches).1.progress.processed_dates)
    (hinit : d ∉ st.progress.processed_dates) :
    ∃ c rc,
      lookupAssoc (run_daily_batches pyHash appId fault st batches).1.db.batch_processing d = some c
      ∧ lookupAssoc (run_daily_batches pyHash appId fault st batches).1.progress.batch_stats d = some rc
      ∧ c ≤ rc := by
  induction batches generalizing st with
  | nil => exact absurd hfin hinit
  | cons p rest ih =>
    obtain ⟨d0, revs0⟩ := p
    rw [List.map_cons] at hnodup
    have hd0 := (List.nodup_cons.mp hnodup).1
    have hnodup' := (List.nodup_cons.mp hnodup).2
    have hne0 : revs0 ≠ [] := hne (d0, revs0) (List.mem_cons_self _ _)
    have hempty0 : revs0.isEmpty = false := isEmpty_false_of_ne hne0
    have hne' : ∀ p ∈ rest, p.2 ≠ [] :=
      fun q hq => hne q (List.mem_cons_of_mem _ hq)
    by_cases hd : d = d0
    · subst hd
      by_cases hf : fault d = true
      · exfalso
        have hst1 := step_fault_state pyHash appId fault st revs0 d hempty0 hf
        have hfin' : d ∈ (run_daily_batches pyHash appId fault
            (process_single_day_batch pyHash appId fault st revs0 d).2 rest).1.progress.processed_dates := hfin
        rw [hst1] at hfin'
        rcases (run_processed_iff pyHash appId fault rest st d).mp hfin' with hmem | ⟨q, hq, hqd, _⟩
        · exact hinit hmem
        · exact hd0 (List.mem_map.mpr ⟨q, hq, hqd⟩)
      · rw [Bool.not_eq_true] at hf
        have hst1 := step_success_state pyHash appId fault st revs0 d hempty0 hf
        have hxd : ∀ q ∈ rest, q.1 ≠ d :=
          fun q hq h => hd0 (List.mem_map.mpr ⟨q, hq, h⟩)
        have hrow : lookupAssoc (run_daily_batches pyHash appId fault
            (process_single_day_batch pyHash appId fault st revs0 d).2 rest).1.db.batch_processing d =
            some (insertOrIgnore st.db.raw_reviews (revs0.map (mkRow pyHash appId d))).2 := by
          rw [run_batch_row_lookup pyHash appId fault rest _ d hxd]
          rw [hst1]
          show lookupAssoc (store_daily_batch pyHash st.db revs0 appId d).batch_processing d = _
          rw [store_daily_batch]
          rw [if_neg (by simp [hempty0])]
          simp [lookupAssoc_setAssoc]
        have hstats : lookupAssoc (run_daily_batches pyHash appId fault
            (process_single_day_batch pyHash appId fault st revs0 d).2 rest).1.progress.batch_stats d =
            some revs0.length := by
          rw [run_stats_lookup pyHash appId fault rest _ d hxd]
          rw [hst1]
          show lookupAssoc (mark_date_processed st.progress d revs0.length).batch_stats d = _
          rw [stats_mark_date_processed]
          simp
        refine ⟨(insertOrIgnore st.db.raw_reviews (revs0.map (mkRow pyHash appId d))).2,
          revs0.length, hrow, hstats, ?_⟩
        calc (insertOrIgnore st.db.raw_reviews (revs0.map (mkRow pyHash appId d))).2
            ≤ (revs0.map (mkRow pyHash appId d)).length :=
              insertOrIgnore_count_le _ _
          _ = revs0.length := List.length_map _ _
    · have hst1mem : d ∉ (process_single_day_batch pyHash appId fault st revs0 d0).2.progress.processed_dates := by
        rw [step_processed_iff]
        rintro (h | ⟨h, -⟩)
        · exact hinit h
        · exact hd h
      exact ih (process_single_day_batch pyHash appId fault st revs0 d0).2
        hnodup' hne' hfin hst1mem

theorem C1_amended_witness :
    ((([(3, [(⟨some "b", "x", 4, 3, 9, 0⟩ : Review)])].map Prod.fst).Nodup)
      ∧ (∀ p ∈ ([(3, [(⟨some "b", "x", 4, 3, 9, 0⟩ : Review)])] : List (Nat × List Review)), p.2 ≠ [])
      ∧ 3 ∈ (run_daily_batches (fun _ => 0) "app" (fun _ => false)
          ⟨⟨[], []⟩, ⟨[], none, 0, []⟩⟩
          [(3, [⟨some "b", "x", 4, 3, 9, 0⟩])]).1.progress.processed_dates
      ∧ 3 ∉ (⟨⟨[], []⟩, ⟨[], none, 0, []⟩⟩ : SystemState).progress.processed_dates)
    ∧ (∃ c rc,
        lookupAssoc (run_daily_batches (fun _ => 0) "app" (fun _ => false)
          ⟨⟨[], []⟩, ⟨[], none, 0, []⟩⟩
          [(3, [⟨some "b", "x", 4, 3, 9, 0⟩])]).1.db.batch_processing 3 = some c
        ∧ lookupAssoc (run_daily_batches (fun _ => 0) "app" (fun _ => false)
          ⟨⟨[], []⟩, ⟨[], none, 0, []⟩⟩
          [(3, [⟨some "b", "x", 4, 3, 9, 0⟩])]).1.progress.batch_stats 3 = some rc
        ∧ c ≤ rc) :=
  ⟨⟨by decide, by decide, by decide, by decide⟩,
    C1_amended_row_before_mark (fun _ => 0) "app" (fun _ => false)
      ⟨⟨[], []⟩, ⟨[], none, 0, []⟩⟩ [(3, [⟨some "b", "x", 4, 3, 9, 0⟩])]
      (by decide) (by decide) 3 (by decide) (by decide)⟩

/-- Claim C9 concerns a code bug: for a review lacking an upstream
identifier, store_daily_batch synthesizes rev_ followed by the Python hash
of the content and the timestamp; Python salts string hashing with a
per-process random seed, so the synthesized identifier is a function of the
process's hash seed as well as of content and timestamp, and two
independent runs storing the same review persist different primary keys.
The theorem evaluates the synthesized identifier under two hash functions
(two process seeds) at the same review and shows the persisted identifiers
differ, while each single process maps content and timestamp to its
identifier deterministically. -/
theorem C9_hash_seed_instability :
    (mkRow (fun _ => (0 : Int)) "app" 0 ⟨none, "great app", 5, 0, 5, 0⟩).review_id = "rev_0_5"
    ∧ (mkRow (fun _ => (1 : Int)) "app" 0 ⟨none, "great app", 5, 0, 5, 0⟩).review_id = "rev_1_5"
    ∧ (mkRow (fun _ => (0 : Int)) "app" 0 ⟨none, "great app", 5, 0, 5, 0⟩).review_id ≠
        (mkRow (fun _ => (1 : Int)) "app" 0 ⟨none, "great app", 5, 0, 5, 0⟩).review_id
    ∧ (∀ pyHash : String → Int, ∀ r : Review, r.reviewId = none →
        (mkRow pyHash "app" 0 r).review_id = synthReviewId pyHash r.content r.at_time) := by
  refine ⟨by decide, by decide, by decide, ?_⟩
  intro pyHash r hr
  rw [mkRow]
  rw [hr]
  rfl

/-- First-occurrence deduplication, modelling pandas Series.unique, which
lists each distinct value once in order of first appearance. -/
def dedupFirst (l : List Nat) : List Nat :=
  l.foldl (fun acc d => if d ∈ acc then acc else acc ++ [d]) []

/-- ReviewScraper.split_into_daily_batches: an empty frame yields an empty
mapping; otherwise, for each distinct date in order of first appearance,
the group is the rows of the frame with that date (in the frame's existing
order, as pandas boolean indexing preserves it), truncated to the first
reviews_per_day rows when it is larger. -/
def split_into_daily_batches (df : List Review) (reviews_per_day : Nat) :
    List (Nat × List Review) :=
  if df.isEmpty then []
  else
    (dedupFirst (df.map (fun r => r.date))).map (fun d =>
      (d,
        if reviews_per_day < (df.filter (fun r => decide (r.date = d))).length then
          (df.filter (fun r => decide (r.date = d))).take reviews_per_day
        else df.filter (fun r => decide (r.date = d))))

/-- Claim C4: after partitioning, every date's group in the day-keyed map
holds at most per_day_quota reviews, and a group is exactly the first
per_day_quota records of that date's rows in the frame's existing order
(the whole group when it does not exceed the quota). -/
theorem C4_quota_cap (df : List Review) (quota : Nat) (d : Nat) (g : List Review)
    (hmem : (d, g) ∈ split_into_daily_batches df quota) :
    g.length ≤ quota
    ∧ g = (df.filter (fun r => decide (r.date = d))).take quota := by
  rw [split_into_daily_batches] at hmem
  by_cases hdf : df.isEmpty
  · rw [if_pos hdf] at hmem
    cases hmem
  · rw [if_neg hdf] at hmem
    obtain ⟨d', hd', heq⟩ := List.mem_map.mp hmem
    have h1 : d' = d := congrArg Prod.fst heq
    subst h1
    have h2 : (if quota < (df.filter (fun r => decide (r.date = d'))).length then
          (df.filter (fun r => decide (r.date = d'))).take quota
        else df.filter (fun r => decide (r.date = d'))) = g := congrArg Prod.snd heq
    subst h2
    by_cases hlen : quota < (df.filter (fun r => decide (r.date = d'))).length
    · rw [if_pos hlen]
      refine ⟨?_, rfl⟩
      rw [List.length_take]
      exact Nat.min_le_left _ _
    · rw [if_neg hlen]
      push_neg at hlen
      exact ⟨hlen, (List.take_of_length_le hlen).symm⟩

theorem C4_witness :
    ((0, [(⟨some "1", "a", 5, 0, 1, 0⟩ : Review), ⟨some "2", "b", 4, 0, 2, 0⟩]) ∈
        split_into_daily_batches
          [⟨some "1", "a", 5, 0, 1, 0⟩, ⟨some "2", "b", 4, 0, 2, 0⟩,
           ⟨some "3", "c", 3, 0, 3, 0⟩] 2)
    ∧ ([(⟨some "1", "a", 5, 0, 1, 0⟩ : Review), ⟨some "2", "b", 4, 0, 2, 0⟩].length ≤ 2
      ∧ [(⟨some "1", "a", 5, 0, 1, 0⟩ : Review), ⟨some "2", "b", 4, 0, 2, 0⟩] =
          (([⟨some "1", "a", 5, 0, 1, 0⟩, ⟨some "2", "b", 4, 0, 2, 0⟩,
             ⟨some "3", "c", 3, 0, 3, 0⟩] : List Review).filter
              (fun r => decide (r.date = 0))).take 2) :=
  ⟨by decide,
    C4_quota_cap
      [⟨some "1", "a", 5, 0, 1, 0⟩, ⟨some "2", "b", 4, 0, 2, 0⟩,
       ⟨some "3", "c", 3, 0, 3, 0⟩] 2 0
      [⟨some "1", "a", 5, 0, 1, 0⟩, ⟨some "2", "b", 4, 0, 2, 0⟩] (by decide)⟩

/-- Topic record handed to the consolidation agent: the topic_name key, the
original_topic provenance key (absent until consolidation sets it), and an
abstract tag standing for all the other dict fields (category, review ids,
dates, flags), which the agent copies through untouched. -/
structure Topic where
  topic_name : String
  original_topic : Option String
  rest : Nat
deriving DecidableEq

/-- Nearest stored document for a query, by minimal backend distance, the
earliest stored winning ties; models collection.query with n_results 1
against the registry of previously added topic strings.  The distance
function is the external embedding backend (chroma with the sentence
transformer); distances are modelled as rationals. -/
def bestMatch (dist : String → String → ℚ) (q : String) :
    List String → Option (String × ℚ)
  | [] => none
  | t :: ts =>
    match bestMatch dist q ts with
    | none => some (t, dist q t)
    | some p => if dist q t ≤ p.2 then some (t, dist q t) else some p

/-- TopicVectorStore.find_similar_topics with top_k 1: the nearest stored
topic, kept only when its similarity, computed as 1 minus the reported
distance, is at or above the threshold. -/
def find_similar_top1 (dist : String → String → ℚ) (reg : List String)
    (q : String) (threshold : ℚ) : Option (String × ℚ) :=
  match bestMatch dist q reg with
  | none => none
  | some p => if threshold ≤ 1 - p.2 then some (p.1, 1 - p.2) else none

/-- TopicVectorStore.get_canonical_topic: the nearest stored topic at or
above the threshold, or none. -/
def get_canonical_topic (dist : String → String → ℚ) (reg : List String)
    (q : String) (threshold : ℚ) : Option String :=
  (find_similar_top1 dist reg q threshold).map Prod.fst

/-- TopicVectorStore.add_topics: append each topic to the registry.  Chroma
ids are hash(topic), so re-adding an already stored string hits an existing
id, which chroma ignores with a warning; the registry therefore gains a
string only when it is not already present (hash collisions between
distinct strings are not modelled). -/
def add_topics (reg : List String) (topics : List String) : List String :=
  topics.foldl (fun acc t => if t ∈ acc then acc else acc ++ [t]) reg

/-- Loop body of TopicConsolidationAgent.consolidate_topics for one topic:
Python evaluates the guard as canonical_topic being truthy (not None and
not the empty string) and textually different from the input name; in that
case the topic is copied with its name rewritten to the canonical string
and the original recorded, and the registry is not touched; otherwise the
input's own name is added to the registry and the topic passes through
unchanged. -/
def consolidateStep (dist : String → String → ℚ) (threshold : ℚ)
    (reg : List String) (t : Topic) : Topic × List String :=
  match get_canonical_topic dist reg t.topic_name threshold with
  | some c =>
    if c ≠ "" ∧ c ≠ t.topic_name then
      ({ t with topic_name := c, original_topic := some t.topic_name }, reg)
    else (t, add_topics reg [t.topic_name])
  | none => (t, add_topics reg [t.topic_name])

/-- The for-loop of consolidate_topics, threading the registry and
collecting the consolidated topics in order. -/
def consolidateGo (dist : String → String → ℚ) (threshold : ℚ) :
    List String → List Topic → List Topic × List String
  | reg, [] => ([], reg)
  | reg, t :: ts =>
    let s := consolidateStep dist threshold reg t
    let r := consolidateGo dist threshold s.2 ts
    (s.1 :: r.1, r.2)

/-- TopicConsolidationAgent.consolidate_topics: an empty input returns the
empty list at once; otherwise each topic runs through the loop body in
order.  Returns the consolidated topics and the final registry. -/
def consolidate_topics (dist : String → String → ℚ) (threshold : ℚ)
    (reg : List String) (raw_topics : List Topic) : List Topic × List String :=
  if raw_topics.isEmpty then ([], reg)
  else consolidateGo dist threshold reg raw_topics

theorem consolidate_topics_cons (dist : String → String → ℚ) (threshold : ℚ)
    (reg : List String) (t : Topic) (ts : List Topic) :
    consolidate_topics dist threshold reg (t :: ts) =
      ((consolidateStep dist threshold reg t).1 ::
          (consolidateGo dist threshold (consolidateStep dist threshold reg t).2 ts).1,
        (consolidateGo dist threshold (consolidateStep dist threshold reg t).2 ts).2) := rfl

/-- Claim C3, counterexample: with the empty string already registered as a
canonical topic, a distance backend reporting distance 0 (similarity 1) and
threshold 4/5, the input topic named x has a nearest registered topic at or
above the threshold whose string differs from x, yet consolidation does not
rewrite the topic to that canonical string: the Python guard treats the
empty canonical string as falsy, so the topic passes through unchanged and
x is registered as new.  The final conjunct negates the rewrite the claim
predicts. -/
theorem C3_counterexample :
    get_canonical_topic (fun _ _ => (0 : ℚ)) [""] "x" (4 / 5) = some ""
    ∧ ("" : String) ≠ "x"
    ∧ (4 : ℚ) / 5 ≤ 1 - 0
    ∧ consolidate_topics (fun _ _ => (0 : ℚ)) (4 / 5) [""] [⟨"x", none, 0⟩] =
        ([⟨"x", none, 0⟩], ["", "x"])
    ∧ (consolidate_topics (fun _ _ => (0 : ℚ)) (4 / 5) [""] [⟨"x", none, 0⟩]).1 ≠
        [(⟨"", some "x", 0⟩ : Topic)] := by
  have hbm : bestMatch (fun _ _ => (0 : ℚ)) "x" [""] = some ("", 0) := rfl
  have hth : (4 : ℚ) / 5 ≤ 1 - 0 := by norm_num
  have hgc : get_canonical_topic (fun _ _ => (0 : ℚ)) [""] "x" (4 / 5) = some "" := by
    rw [get_canonical_topic, find_similar_top1, hbm]
    show Option.map Prod.fst
        (if (4 : ℚ) / 5 ≤ 1 - 0 then some (("" : String), 1 - 0) else none) = some ""
    rw [if_pos hth]
    rfl
  have hstep : consolidateStep (fun _ _ => (0 : ℚ)) (4 / 5) [""] ⟨"x", none, 0⟩ =
      (⟨"x", none, 0⟩, ["", "x"]) := by
    unfold consolidateStep
    rw [hgc]
    show (if (("" : String) ≠ "" ∧ ("" : String) ≠ "x") then
        ({ (⟨"x", none, 0⟩ : Topic) with topic_name := "", original_topic := some "x" }, [""])
      else ((⟨"x", none, 0⟩ : Topic), add_topics [""] ["x"])) = (⟨"x", none, 0⟩, ["", "x"])
    rw [if_neg (by simp)]
    decide
  have hfull : consolidate_topics (fun _ _ => (0 : ℚ)) (4 / 5) [""] [⟨"x", none, 0⟩] =
      ([⟨"x", none, 0⟩], ["", "x"]) := by
    rw [consolidate_topics_cons, hstep]
    rfl
  refine ⟨hgc, by decide, hth, hfull, ?_⟩
  rw [hfull]
  decide

/-- Claim C3 as amended: when the single nearest registered topic has
similarity (1 minus the backend distance) at or above the threshold, its
string differs from the input's topic name AND is non-empty (the Python
truthiness of the guard), the output topic is the input renamed to the
canonical string with the original name recorded as provenance, and the
registry is unchanged; when the similarity is at or above the threshold
but the canonical string is empty or identical to the input, when the
similarity is below the threshold, and likewise when the registry holds no
match at all (the empty registry of the first consolidation), the input's
own string is registered and the topic passes through unchanged. -/
theorem C3_amended_threshold_rewrite (dist : String → String → ℚ)
    (threshold : ℚ) (reg : List String) (t : Topic) (ts : List Topic) :
    (∀ c dv, bestMatch dist t.topic_name reg = some (c, dv) →
      ((threshold ≤ 1 - dv ∧ c ≠ "" ∧ c ≠ t.topic_name) →
        consolidate_topics dist threshold reg (t :: ts) =
          ({ t with topic_name := c, original_topic := some t.topic_name } ::
              (consolidateGo dist threshold reg ts).1,
            (consolidateGo dist threshold reg ts).2))
      ∧ ((threshold ≤ 1 - dv ∧ (c = "" ∨ c = t.topic_name)) →
        consolidate_topics dist threshold reg (t :: ts) =
          (t :: (consolidateGo dist threshold (add_topics reg [t.topic_name]) ts).1,
            (consolidateGo dist threshold (add_topics reg [t.topic_name]) ts).2))
      ∧ ((1 - dv < threshold) →
        consolidate_topics dist threshold reg (t :: ts) =
          (t :: (consolidateGo dist threshold (add_topics reg [t.topic_name]) ts).1,
            (consolidateGo dist threshold (add_topics reg [t.topic_name]) ts).2)))
    ∧ (bestMatch dist t.topic_name reg = none →
      consolidate_topics dist threshold reg (t :: ts) =
        (t :: (consolidateGo dist threshold (add_topics reg [t.topic_name]) ts).1,
          (consolidateGo dist threshold (add_topics reg [t.topic_name]) ts).2)) := by
  constructor
  case right =>
    intro hbm
    have hgc : get_canonical_topic dist reg t.topic_name threshold = none := by
      rw [get_canonical_topic, find_similar_top1, hbm]
      rfl
    have hstep : consolidateStep dist threshold reg t =
        (t, add_topics reg [t.topic_name]) := by
      unfold consolidateStep
      rw [hgc]
    rw [consolidate_topics_cons, hstep]
  intro c dv hbm
  refine ⟨?_, ?_, ?_⟩
  · rintro ⟨hθ, hcne, hcnt⟩
    have hgc : get_canonical_topic dist reg t.topic_name threshold = some c := by
      rw [get_canonical_topic, find_similar_top1, hbm]
      show Option.map Prod.fst
          (if threshold ≤ 1 - dv then some (c, 1 - dv) else none) = some c
      rw [if_pos hθ]
      rfl
    have hstep : consolidateStep dist threshold reg t =
        ({ t with topic_name := c, original_topic := some t.topic_name }, reg) := by
      unfold consolidateStep
      rw [hgc]
      show (if (c ≠ "" ∧ c ≠ t.topic_name) then
          ({ t with topic_name := c, original_topic := some t.topic_name }, reg)
        else (t, add_topics reg [t.topic_name])) =
          ({ t with topic_name := c, original_topic := some t.topic_name }, reg)
      rw [if_pos ⟨hcne, hcnt⟩]
    rw [consolidate_topics_cons, hstep]
  · rintro ⟨hθ, hsame⟩
    have hgc : get_canonical_topic dist reg t.topic_name threshold = some c := by
      rw [get_canonical_topic, find_similar_top1, hbm]
      show Option.map Prod.fst
          (if threshold ≤ 1 - dv then some (c, 1 - dv) else none) = some c
      rw [if_pos hθ]
      rfl
    have hstep : consolidateStep dist threshold reg t =
        (t, add_topics reg [t.topic_name]) := by
      unfold consolidateStep
      rw [hgc]
      show (if (c ≠ "" ∧ c ≠ t.topic_name) then
          ({ t with topic_name := c, original_topic := some t.topic_name }, reg)
        else (t, add_topics reg [t.topic_name])) = (t, add_topics reg [t.topic_name])
      rcases hsame with h | h
      · rw [if_neg (by simp [h])]
      · rw [if_neg (by simp [h])]
    rw [consolidate_topics_cons, hstep]
  · intro hθ
    have hgc : get_canonical_topic dist reg t.topic_name threshold = none := by
      rw [get_canonical_topic, find_similar_top1, hbm]
      show Option.map Prod.fst
          (if threshold ≤ 1 - dv then some (c, 1 - dv) else none) = none
      rw [if_neg (not_le.mpr hθ)]
      rfl
    have hstep : consolidateStep dist threshold reg t =
        (t, add_topics reg [t.topic_name]) := by
      unfold consolidateStep
      rw [hgc]
    rw [consolidate_topics_cons, hstep]

theorem C3_amended_witness :
    (bestMatch (fun _ _ => (0 : ℚ)) "x" ["canon"] = some ("canon", 0)
      ∧ ((4 : ℚ) / 5 ≤ 1 - 0 ∧ ("canon" : String) ≠ "" ∧ ("canon" : String) ≠ "x")
      ∧ bestMatch (fun _ _ => (0 : ℚ)) "y" [] = none)
    ∧ consolidate_topics (fun _ _ => (0 : ℚ)) (4 / 5) ["canon"] [⟨"x", none, 7⟩] =
        ({ (⟨"x", none, 7⟩ : Topic) with topic_name := "canon", original_topic := some "x" } ::
            (consolidateGo (fun _ _ => (0 : ℚ)) (4 / 5) ["canon"] []).1,
          (consolidateGo (fun _ _ => (0 : ℚ)) (4 / 5) ["canon"] []).2)
    ∧ consolidate_topics (fun _ _ => (0 : ℚ)) (4 / 5) [] [⟨"y", none, 3⟩] =
        ((⟨"y", none, 3⟩ : Topic) ::
            (consolidateGo (fun _ _ => (0 : ℚ)) (4 / 5) (add_topics [] ["y"]) []).1,
          (consolidateGo (fun _ _ => (0 : ℚ)) (4 / 5) (add_topics [] ["y"]) []).2) :=
  ⟨⟨rfl, ⟨by norm_num, by decide, by decide⟩, rfl⟩,
    ((C3_amended_threshold_rewrite (fun _ _ => (0 : ℚ)) (4 / 5) ["canon"]
        ⟨"x", none, 7⟩ []).1 "canon" 0 rfl).1 ⟨by norm_num, by decide, by decide⟩,
    (C3_amended_threshold_rewrite (fun _ _ => (0 : ℚ)) (4 / 5) []
        ⟨"y", none, 3⟩ []).2 rfl⟩

theorem consolidateStep_rel (dist : String → String → ℚ) (threshold : ℚ)
    (reg : List String) (t : Topic) :
    (consolidateStep dist threshold reg t).1.rest = t.rest
    ∧ ((consolidateStep dist threshold reg t).1 = t
      ∨ ((consolidateStep dist threshold reg t).1.topic_name ≠ t.topic_name
        ∧ (consolidateStep dist threshold reg t).1.original_topic = some t.topic_name)) := by
  unfold consolidateStep
  split
  · rename_i c hc
    split
    · rename_i hcond
      exact ⟨rfl, Or.inr ⟨hcond.2, rfl⟩⟩
    · exact ⟨rfl, Or.inl rfl⟩
  · exact ⟨rfl, Or.inl rfl⟩

theorem consolidateGo_forall2 (dist : String → String → ℚ) (threshold : ℚ)
    (ts : List Topic) : ∀ reg : List String,
    List.Forall₂ (fun o t => o.rest = t.rest
        ∧ (o = t ∨ (o.topic_name ≠ t.topic_name ∧ o.original_topic = some t.topic_name)))
      (consolidateGo dist threshold reg ts).1 ts := by
  induction ts with
  | nil => intro reg; exact List.Forall₂.nil
  | cons t ts ih =>
    intro reg
    have hcons : (consolidateGo dist threshold reg (t :: ts)).1 =
        (consolidateStep dist threshold reg t).1 ::
          (consolidateGo dist threshold (consolidateStep dist threshold reg t).2 ts).1 := rfl
    rw [hcons]
    exact List.Forall₂.cons (consolidateStep_rel dist threshold reg t) (ih _)

/-- Claim C10: consolidate_topics maps each input topic to exactly one
output topic at the same position — the same topic, or the same payload
renamed with the original name recorded — so the output has exactly the
length and order of the input and nothing is dropped or merged. -/
theorem C10_length_order_preserved (dist : String → String → ℚ)
    (threshold : ℚ) (reg : List String) (raw_topics : List Topic) :
    List.Forall₂ (fun o t => o.rest = t.rest
        ∧ (o = t ∨ (o.topic_name ≠ t.topic_name ∧ o.original_topic = some t.topic_name)))
      (consolidate_topics dist threshold reg raw_topics).1 raw_topics
    ∧ (consolidate_topics dist threshold reg raw_topics).1.length = raw_topics.length := by
  have h : List.Forall₂ (fun o t => o.rest = t.rest
        ∧ (o = t ∨ (o.topic_name ≠ t.topic_name ∧ o.original_topic = some t.topic_name)))
      (consolidate_topics dist threshold reg raw_topics).1 raw_topics := by
    cases raw_topics with
    | nil => exact List.Forall₂.nil
    | cons t ts => exact consolidateGo_forall2 dist threshold (t :: ts) reg
  exact ⟨h, h.length_eq⟩

end Pulsegen
